import Mathlib

/-! # Verification of the ODIN sync engine

A shallow embedding, in Lean 4, of the sync-engine core of the ODIN
repository: the persistence upsert layer (`DatabaseService` in
`src/main/services/database/db.ts`), the OAuth2 token state machine of the
ACLED adapter (the `AcledTokens` variant imported by the scheduler), the
retry/pagination engine (`BaseApiAdapter` in
`src/main/services/api/base-adapter.ts`), the sync-log lifecycle and the
scheduler guard (`SyncScheduler` in `src/main/services/sync/scheduler.ts`),
and the settings IPC write path (`registerIpcHandlers`).

Modelling conventions:
* SQLite tables keyed by a single primary key are modelled as `Finmap`
  from the key to the row; `INSERT OR REPLACE` is `Finmap.insert`.
* Fields of rows whose columns admit SQL NULL are `Option`-valued; a
  `NOT NULL` constraint violation is the per-row failure that
  `upsertConflicts` catches and skips.
* Wall-clock instants (Unix milliseconds) are `Int` for token arithmetic
  and `Nat` for log timestamps.  SQLite `datetime('now')` TEXT values
  order lexicographically exactly as their instants order numerically, so
  `sync_log.started_at` / `completed_at` are modelled as `Nat` instants.
* `async/await` appears only in the scheduler guard model, where the
  synchronous prefix of each method (everything it executes before its
  first `await`) is one atomic step, as in the Node.js event loop.
* Latitude/longitude REAL values are carried opaquely as `Int`: no claim
  computes with them, they only pass through.
-/

namespace Odin

/-! ## Conflict events and the persistence upsert layer

From `src/main/services/database/db.ts` (`upsertConflicts`) and the
`conflict_events` schema of `schema.sql` / migration v2:
`id TEXT PRIMARY KEY, iso3 TEXT NOT NULL, event_date TEXT NOT NULL,
event_type TEXT NOT NULL, ..., latitude REAL NOT NULL, longitude REAL NOT
NULL`, remaining columns nullable, and no foreign key on `iso3`.
-/

/-- A conflict-event record as handed to `DatabaseService.upsertConflicts`.
The `id` is the natural identifier produced by `normalize` from
`event_id_cnty`; columns that admit NULL in the `conflict_events` table are
`Option`-valued. -/
structure ConflictEvent where
  id : String
  iso3 : Option String
  event_date : Option String
  event_type : Option String
  sub_event_type : Option String
  actor1 : Option String
  actor2 : Option String
  location : Option String
  latitude : Option Int
  longitude : Option Int
  fatalities : Option Int
  notes : Option String
  source : Option String
  source_scale : Option String
deriving DecidableEq

/-- The `NOT NULL` constraints of the `conflict_events` table (post
migration v2): `iso3`, `event_date`, `event_type`, `latitude`, `longitude`.
A row violating one of them makes `stmt.run` throw, which the per-row
`try/catch` in `upsertConflicts` turns into a skip. -/
def satisfiesNotNull (e : ConflictEvent) : Bool :=
  e.iso3.isSome && e.event_date.isSome && e.event_type.isSome &&
    e.latitude.isSome && e.longitude.isSome

/-- The `conflict_events` table: a finite map from the `id` primary key to
the row. -/
abbrev ConflictTable := Finmap (fun _ : String => ConflictEvent)

/-- One `INSERT OR REPLACE INTO conflict_events ...` for a row satisfying
the constraints: replace-by-primary-key. -/
def upsertConflictRow (e : ConflictEvent) (t : ConflictTable) : ConflictTable :=
  t.insert e.id e

/-- `DatabaseService.upsertConflicts`: iterate the batch inside one
transaction; each row is tried individually, a constraint violation is
caught and the row skipped; returns the new table and the count of rows
applied. -/
def upsertConflicts : List ConflictEvent → ConflictTable → ConflictTable × Nat
  | [], t => (t, 0)
  | e :: rest, t =>
    if satisfiesNotNull e then
      let r := upsertConflicts rest (upsertConflictRow e t)
      (r.1, r.2 + 1)
    else
      upsertConflicts rest t

/-- The table produced by a batch, ignoring the returned count. -/
def applyBatch (b : List ConflictEvent) (t : ConflictTable) : ConflictTable :=
  b.foldl (fun acc e => if satisfiesNotNull e then upsertConflictRow e acc else acc) t

/-- Number of rows in a table (`SELECT COUNT(*)`). -/
def rowCount (t : ConflictTable) : Nat :=
  t.keys.card

/-! ## Settings storage

From `DatabaseService.updateSettings` (`db.ts`): the `settings` table is
`key TEXT PRIMARY KEY, value TEXT NOT NULL`; `updateSettings` iterates the
entries of its partial-settings argument and, for each key whose value is
not `undefined`, executes
`INSERT INTO settings (key, value) VALUES (?, ?) ON CONFLICT(key) DO
UPDATE SET value = excluded.value` with the JSON-serialised value.

A patch entry `(k, some v)` models a key present with the defined,
already-serialised value `v`; `(k, none)` models a key present with value
`undefined`, which the `value !== undefined` test skips.
-/

/-- The `settings` table: key to stored (serialised) value. -/
abbrev SettingsStore := Finmap (fun _ : String => String)

/-- `DatabaseService.updateSettings`. -/
def updateSettings (patch : List (String × Option String)) (store : SettingsStore) :
    SettingsStore :=
  patch.foldl
    (fun st kv =>
      match kv.2 with
      | some v => st.insert kv.1 v
      | none => st)
    store

/-- The value the sequence of upserts in `updateSettings` leaves for key
`k`: the last defined value given for `k` in the patch, if any. -/
def lastDefinedValue (k : String) : List (String × Option String) → Option String
  | [] => none
  | kv :: rest =>
    match lastDefinedValue k rest with
    | some v => some v
    | none => if kv.1 = k then kv.2 else none

/-! ## The `settings:set` IPC handler

From `registerIpcHandlers` (main-process IPC registration): the handler
rejects payloads that are not plain objects, then copies into a filtered
patch exactly those keys of `WRITABLE_SETTINGS_KEYS` that are present in
the payload with a defined value, and calls `db.updateSettings(filtered)`.
Keys outside the writable set are not copied and raise no error.
-/

/-- A renderer-supplied `settings:set` payload: either a plain object
(modelled as its own-property list, `none` = `undefined` value) or any
other JSON value (`null`, an array, a primitive), which the
`typeof`/`Array.isArray` guard rejects. -/
inductive SettingsPayload where
  | obj (entries : List (String × Option String))
  | nonObj
deriving DecidableEq

/-- `WRITABLE_SETTINGS_KEYS` from the IPC registration module.  Token
fields are deliberately absent: they are managed internally by the sync
scheduler. -/
def WRITABLE_SETTINGS_KEYS : List String :=
  ["acledEmail", "acledPassword", "syncIntervalMinutes", "mapDefaultCenter",
   "mapDefaultZoom"]

/-- `key in raw && raw[key] !== undefined`: the defined value of `k` in the
payload object, if any. -/
def definedValue (k : String) (entries : List (String × Option String)) :
    Option String :=
  match (entries.find? (fun kv => kv.1 == k)).map (·.2) with
  | some (some v) => some v
  | _ => none

/-- The `filtered` patch built by the handler: the writable keys, in the
order of `WRITABLE_SETTINGS_KEYS`, that the payload defines. -/
def filteredPayload (entries : List (String × Option String)) :
    List (String × Option String) :=
  WRITABLE_SETTINGS_KEYS.foldl
    (fun acc k =>
      match definedValue k entries with
      | some v => acc ++ [(k, some v)]
      | none => acc)
    []

/-- The `settings:set` handler: guard, filter, `db.updateSettings`. -/
def settingsSetHandler (payload : SettingsPayload) (store : SettingsStore) :
    Except String SettingsStore :=
  match payload with
  | .nonObj => .error "Invalid settings payload"
  | .obj entries => .ok (updateSettings (filteredPayload entries) store)

/-! ## ACLED OAuth2 token state machine

From the `AcledAdapter` used by `SyncScheduler` (the variant exporting
`AcledTokens` and `getTokens`): `ensureValidTokens` compares `Date.now()`
against `tokenExpiry - REFRESH_BUFFER_MS`; inside the buffer it attempts a
refresh-grant exchange when a non-empty, unexpired refresh token is held,
catching a refresh failure and falling through; in every remaining case it
performs the full password-grant login (`fetchNewTokens`).

The two network calls are passed in as functions returning `Except`
(`.error` = the HTTP/validation failure the method throws).  The
`EnsureResult` flags record which calls the control flow made.
-/

/-- The `AcledTokens` pair persisted between runs. -/
structure AcledTokens where
  accessToken : String
  refreshToken : String
  tokenExpiry : Int
  refreshTokenExpiry : Int
deriving DecidableEq

/-- `REFRESH_BUFFER_MS = 60_000`: refresh one minute before expiry. -/
def REFRESH_BUFFER_MS : Int := 60000

/-- Outcome of `ensureValidTokens` plus which paths were taken. -/
structure EnsureResult where
  result : Except String AcledTokens
  usedExisting : Bool
  refreshAttempted : Bool
  loginAttempted : Bool

/-- `AcledAdapter.ensureValidTokens`. -/
def ensureValidTokens (now : Int) (tokens : Option AcledTokens)
    (refreshFn : String → Except String AcledTokens)
    (loginFn : Unit → Except String AcledTokens) : EnsureResult :=
  match tokens with
  | some t =>
    if now < t.tokenExpiry - REFRESH_BUFFER_MS then
      ⟨.ok t, true, false, false⟩
    else if t.refreshToken ≠ "" ∧ now < t.refreshTokenExpiry then
      match refreshFn t.refreshToken with
      | .ok t2 => ⟨.ok t2, false, true, false⟩
      | .error _ =>
        match loginFn () with
        | .ok t3 => ⟨.ok t3, false, true, true⟩
        | .error e => ⟨.error e, false, true, true⟩
    else
      match loginFn () with
      | .ok t3 => ⟨.ok t3, false, false, true⟩
      | .error e => ⟨.error e, false, false, true⟩
  | none =>
    match loginFn () with
    | .ok t3 => ⟨.ok t3, false, false, true⟩
    | .error e => ⟨.error e, false, false, true⟩

/-! ## Retry and pagination engine

From `BaseApiAdapter.withRetry` / `fetchAll` (`base-adapter.ts`).  The
outcome of the underlying fetch on its `i`-th attempt (0-based) is given
by `attemptFn i`.  `withRetryGo` returns the propagated result, the number
of attempts made, and the list of backoff delays slept (in ms).
-/

/-- `withRetry`'s default `maxRetries`. -/
def DEFAULT_MAX_RETRIES : Nat := 3

/-- `withRetry`'s default `baseDelayMs`. -/
def DEFAULT_BASE_DELAY_MS : Nat := 2000

/-- `BaseApiAdapter.withRetry`, instrumented: the loop
`for (attempt = 0; attempt <= maxRetries; attempt++)` tries `fn`, and on
failure sleeps `baseDelayMs * 2 ^ attempt` when `attempt < maxRetries`;
after the last failure the last error is thrown. -/
def withRetryGo {α : Type} (attemptFn : Nat → Except String α)
    (maxRetries baseDelayMs attempt : Nat) :
    Except String α × Nat × List Nat :=
  match attemptFn attempt with
  | .ok v => (.ok v, 1, [])
  | .error e =>
    if h : attempt < maxRetries then
      let rest := withRetryGo attemptFn maxRetries baseDelayMs (attempt + 1)
      (rest.1, rest.2.1 + 1, baseDelayMs * 2 ^ attempt :: rest.2.2)
    else
      (.error e, 1, [])
termination_by maxRetries - attempt
decreasing_by omega

/-- `BaseApiAdapter.fetchAll`'s pagination loop, for an adapter whose page
fetches are described attempt-wise by `pageAttemptFn page attempt`
(returning the page's normalized records and its `hasMore` flag).  Each
page goes through `withRetry` with the default policy; a page that
exhausts its retries propagates the error and the records accumulated so
far are discarded.  `fuel` bounds the number of pages; the loop in the
source runs while `hasMore`, and every theorem below supplies enough fuel
to reach the page it talks about. -/
def fetchAllGo (pageAttemptFn : Nat → Nat → Except String (List ConflictEvent × Bool))
    (fuel pageIdx : Nat) (acc : List ConflictEvent) :
    Except String (List ConflictEvent) :=
  match fuel with
  | 0 => .ok acc
  | fuel + 1 =>
    match (withRetryGo (pageAttemptFn pageIdx) DEFAULT_MAX_RETRIES
        DEFAULT_BASE_DELAY_MS 0).1 with
    | .error e => .error e
    | .ok (data, hasMore) =>
      if hasMore then
        fetchAllGo pageAttemptFn fuel (pageIdx + 1) (acc ++ data)
      else
        .ok (acc ++ data)

/-! ## The sync log

From `DatabaseService.logSyncStart` / `logSyncComplete` / `logSyncError` /
`getLastSuccessfulSync` (`db.ts`) over the `sync_log` table
(`id INTEGER PRIMARY KEY AUTOINCREMENT, adapter, started_at, completed_at,
status 'running'|'completed'|'error', records_fetched, records_upserted,
error_message`).  Timestamps are `Nat` instants (see the header note).
-/

/-- `sync_log.status`. -/
inductive RunStatus where
  | running
  | completed
  | error
deriving DecidableEq

/-- One `sync_log` row. -/
structure LogEntry where
  id : Nat
  adapter : String
  startedAt : Nat
  completedAt : Option Nat
  status : RunStatus
  recordsFetched : Nat
  recordsUpserted : Nat
  errorMessage : Option String
deriving DecidableEq

/-- The `sync_log` table with its AUTOINCREMENT counter; `entries` is in
insertion (rowid) order. -/
structure SyncLogDb where
  entries : List LogEntry
  nextId : Nat
deriving DecidableEq

/-- `logSyncStart`: insert a `running` row with zero counts and return its
rowid. -/
def logSyncStart (adapter : String) (now : Nat) (db : SyncLogDb) :
    Nat × SyncLogDb :=
  (db.nextId,
   ⟨db.entries ++ [⟨db.nextId, adapter, now, none, .running, 0, 0, none⟩],
    db.nextId + 1⟩)

/-- `logSyncComplete`: `UPDATE sync_log SET status='completed',
completed_at=now, records_fetched=?, records_upserted=? WHERE id = ?`. -/
def logSyncComplete (id fetched upserted now : Nat) (db : SyncLogDb) :
    SyncLogDb :=
  ⟨db.entries.map (fun e =>
      if e.id = id then
        { e with status := .completed, completedAt := some now,
                 recordsFetched := fetched, recordsUpserted := upserted }
      else e),
   db.nextId⟩

/-- `logSyncError`: `UPDATE sync_log SET status='error', completed_at=now,
error_message=? WHERE id = ?` (the counts are left as they are). -/
def logSyncError (id : Nat) (message : String) (now : Nat) (db : SyncLogDb) :
    SyncLogDb :=
  ⟨db.entries.map (fun e =>
      if e.id = id then
        { e with status := .error, completedAt := some now,
                 errorMessage := some message }
      else e),
   db.nextId⟩

/-- One step of the `ORDER BY started_at DESC LIMIT 1` selection: keep the
entry with the strictly larger `started_at` (the tie order of the SQL
query is unspecified; the watermark theorem assumes a unique maximum). -/
def pickLater (best : Option LogEntry) (e : LogEntry) : Option LogEntry :=
  match best with
  | none => some e
  | some b => if b.startedAt < e.startedAt then some e else some b

/-- The `ORDER BY started_at DESC LIMIT 1` selection. -/
def maxByStarted (l : List LogEntry) : Option LogEntry :=
  l.foldl pickLater none

/-- `DatabaseService.getLastSuccessfulSync`: the `completed_at` of the
most recent (by `started_at`) `completed` entry for the adapter, or
`none`. -/
def getLastSuccessfulSync (adapter : String) (db : SyncLogDb) : Option Nat :=
  match maxByStarted (db.entries.filter
      (fun e => e.adapter == adapter && e.status == RunStatus.completed)) with
  | none => none
  | some m => m.completedAt

/-! ## The ACLED incremental fetch window

From `SyncScheduler.initAdapters`'s acled runner
(`const sinceDate = db.getLastSuccessfulSync('acled') ?? undefined`) and
`AcledAdapter.fetchAllEvents`
(`const effectiveSince = sinceDate ?? new Date(Date.now() - TWO_YEARS_MS)
.toISOString().slice(0, 10)`).
-/

/-- `TWO_YEARS_MS = 2 * 365 * 24 * 60 * 60 * 1000`. -/
def TWO_YEARS_MS : Nat := 2 * 365 * 24 * 60 * 60 * 1000

/-- `new Date(ms).toISOString().slice(0, 10)` renders the UTC calendar
day, i.e. truncates the instant to its day. -/
def dayFloor (ms : Nat) : Nat := ms / 86400000 * 86400000

/-- `fetchAllEvents`'s lower bound for the fetch window: the watermark if
one was passed, else two years before now, truncated to the day. -/
def effectiveSince (sinceDate : Option Nat) (nowMs : Nat) : Nat :=
  match sinceDate with
  | some d => d
  | none => dayFloor (nowMs - TWO_YEARS_MS)

/-- The lower bound the acled runner ends up fetching from, as a function
of the sync log at the start of the run. -/
def acledWindowLowerBound (log : SyncLogDb) (nowMs : Nat) : Nat :=
  effectiveSince (getLastSuccessfulSync "acled" log) nowMs

/-! ## The scheduler's per-adapter run

From `SyncScheduler.syncAdapterInternal`: write the `running` row, execute
`adapter.run(this.db)`, then write the terminal row — `completed` with the
returned counts on success, `error` with the thrown message on failure.
An adapter run reads and writes data tables but never the `sync_log`
(checked against every runner in `initAdapters`), so a runner is a
function on the conflict table returning the new table and
`{fetched, upserted}` or the thrown error. -/

/-- The database state a run touches: the sync log and the (here:
conflict-events) data table. -/
structure DbState where
  log : SyncLogDb
  conflicts : ConflictTable

/-- `SyncScheduler.syncAdapterInternal` for an adapter whose execution is
`runner`; `tStart`/`tEnd` are the instants of the two log writes. -/
def syncAdapterInternalM (name : String) (tStart tEnd : Nat)
    (runner : ConflictTable → ConflictTable × Except String (Nat × Nat))
    (st : DbState) : DbState :=
  let started := logSyncStart name tStart st.log
  let r := runner st.conflicts
  match r.2 with
  | .ok fu => ⟨logSyncComplete started.1 fu.1 fu.2 tEnd started.2, r.1⟩
  | .error m => ⟨logSyncError started.1 m tEnd started.2, r.1⟩

/-- The adapter-run body shared by the acled/ucdp runners: take the result
of the fetch phase; on success upsert the batch and report
`{fetched: events.length, upserted}`, on fetch failure rethrow without
touching the store. -/
def runFetchUpsert (fetchResult : Except String (List ConflictEvent))
    (tc : ConflictTable) : ConflictTable × Except String (Nat × Nat) :=
  match fetchResult with
  | .error e => (tc, .error e)
  | .ok events =>
    let r := upsertConflicts events tc
    (r.1, .ok (events.length, r.2))

/-- `SELECT * FROM sync_log WHERE id = ?`. -/
def findEntry (id : Nat) (db : SyncLogDb) : Option LogEntry :=
  db.entries.find? (fun e => e.id == id)

/-- One scheduler-sequenced adapter run: its name, the instants of its log
writes, and its execution. -/
structure RunSpec where
  name : String
  tStart : Nat
  tEnd : Nat
  runner : ConflictTable → ConflictTable × Except String (Nat × Nat)

/-- A sequence of runs as `syncAll` performs them (each via
`syncAdapterInternal`). -/
def runSequence (runs : List RunSpec) (st : DbState) : DbState :=
  runs.foldl
    (fun s r => syncAdapterInternalM r.name r.tStart r.tEnd r.runner s) st

/-- The terminal row a run leaves, given its rowid, its identity and its
outcome. -/
def terminalEntryOf (id : Nat) (name : String) (tStart tEnd : Nat)
    (res : Except String (Nat × Nat)) : LogEntry :=
  match res with
  | .ok fu => ⟨id, name, tStart, some tEnd, .completed, fu.1, fu.2, none⟩
  | .error m => ⟨id, name, tStart, some tEnd, .error, 0, 0, some m⟩

/-- The rows a sequence of runs appends, threading the data table. -/
def expectedEntries : Nat → ConflictTable → List RunSpec → List LogEntry
  | _, _, [] => []
  | n, t, r :: rs =>
    let q := r.runner t
    terminalEntryOf n r.name r.tStart r.tEnd q.2 :: expectedEntries (n + 1) q.1 rs

/-! ## The scheduler guard

From `SyncScheduler.syncAll` / `syncAdapter`.  In the Node.js event loop a
"concurrent" second invocation is one that enters while the first is
suspended at an `await`; the synchronous prefix of each method runs
atomically.  `syncAll`'s prefix checks `this.running` and, if clear, sets
it before its first `await`.  `syncAdapter`'s prefix checks `this.running`
and, if clear, proceeds into `syncAdapterInternal` up to
`await adapter.run(...)` — it never writes `this.running`.  `executions`
records each `adapter.run` invocation started. -/

/-- The scheduler's mutable state relevant to the guard. -/
structure SchedState where
  running : Bool
  executions : List String
deriving DecidableEq

/-- The synchronous prefix of `syncAdapter(name)` (for a registered
adapter): guard check, then — without setting `running` — the start of
`syncAdapterInternal` including the `adapter.run` call it awaits.  The
returned flag is whether an execution was started (`false` = the warned
no-op return). -/
def syncAdapterEntry (name : String) (s : SchedState) : SchedState × Bool :=
  if s.running then
    (s, false)
  else
    ({ s with executions := s.executions ++ [name] }, true)

/-- The synchronous prefix of `syncAll()`: guard check, then
`this.running = true` before the first awaited adapter run. -/
def syncAllEntry (s : SchedState) : SchedState × Bool :=
  if s.running then
    (s, false)
  else
    ({ s with running := true }, true)

/-! ## Concrete fixtures

Small concrete inputs used to evaluate the theorems below on closed
instances. -/

/-- A conflict event satisfying every NOT NULL constraint. -/
def wGood1 : ConflictEvent :=
  ⟨"E1", some "SDN", some "2024-01-01", some "Battles", none, none, none,
   none, some 0, some 0, some 3, none, some "src", none⟩

/-- A conflict event with NULL `iso3`, violating the table's NOT NULL
constraint on its mandatory linking identifier. -/
def wBad : ConflictEvent :=
  ⟨"E2", none, some "2024-01-02", some "Riots", none, none, none,
   none, some 1, some 2, some 0, none, none, none⟩

/-- A second valid conflict event. -/
def wGood2 : ConflictEvent :=
  ⟨"E3", some "MLI", some "2024-01-03", some "Protests", none, none, none,
   none, some 5, some 6, some 1, none, none, none⟩

/-- A held token pair: access expiry at 1 000 000 ms, refresh expiry at
2 000 000 ms. -/
def wTok : AcledTokens := ⟨"acc", "ref", 1000000, 2000000⟩

/-- The token pair a successful password-grant login returns. -/
def wTok2 : AcledTokens := ⟨"acc2", "ref2", 5000000, 6000000⟩

/-- A refresh-grant exchange that fails. -/
def wRefreshFail : String → Except String AcledTokens :=
  fun _ => .error "refresh boom"

/-- A password-grant login that succeeds with `wTok2`. -/
def wLoginOk : Unit → Except String AcledTokens := fun _ => .ok wTok2

/-- A page source whose page 0 succeeds (with more pages announced) and
whose page 1 fails on every attempt. -/
def wPageFn : Nat → Nat → Except String (List ConflictEvent × Bool) :=
  fun p _ => if p = 0 then .ok ([wGood1], true) else .error "boom"

/-- A sync log holding no `completed` acled entry. -/
def wLogA : SyncLogDb :=
  ⟨[⟨1, "ucdp", 100, some 150, .completed, 10, 10, none⟩,
    ⟨2, "acled", 200, some 250, .error, 0, 0, some "x"⟩], 3⟩

/-- The most recent completed acled entry of `wLogB`. -/
def wEntryB : LogEntry := ⟨4, "acled", 400, some 450, .completed, 7, 7, none⟩

/-- A sync log whose completed acled entries are dominated by `wEntryB`. -/
def wLogB : SyncLogDb :=
  ⟨[⟨1, "acled", 100, some 150, .completed, 5, 5, none⟩,
    ⟨2, "ucdp", 300, some 350, .completed, 9, 9, none⟩,
    wEntryB,
    ⟨5, "acled", 500, none, .running, 0, 0, none⟩], 6⟩

/-- A run that succeeds with counts (5, 5). -/
def wRunOk : RunSpec := ⟨"natural-earth", 1, 2, fun t => (t, .ok (5, 5))⟩

/-- A run whose adapter throws. -/
def wRunErr : RunSpec := ⟨"acled", 3, 4, fun t => (t, .error "boom2")⟩

/-- A settings store holding an email and a stored access token. -/
def wStore8 : SettingsStore :=
  Finmap.insert "acledEmail" "old" (Finmap.insert "acledAccessToken" "oldtok" ∅)

/-- A `settings:set` payload mixing a writable key and a non-writable
token key. -/
def wPayload8 : List (String × Option String) :=
  [("acledEmail", some "new"), ("acledAccessToken", some "newtok")]

/-- The store the handler actually produces from `wPayload8`: only the
writable key applied. -/
def wAfter8 : SettingsStore := Finmap.insert "acledEmail" "new" wStore8

/-- A settings store for the frame-property instance. -/
def wStore10 : SettingsStore :=
  Finmap.insert "syncIntervalMinutes" "360" (Finmap.insert "acledEmail" "e0" ∅)

/-- An `updateSettings` patch that does not define `acledEmail` (it
mentions it only with an `undefined` value). -/
def wPatch10 : List (String × Option String) :=
  [("acledTokenExpiry", some "123"), ("acledEmail", none)]

/-! ## Lemmas about the upsert layer -/

theorem applyBatch_nil (t : ConflictTable) : applyBatch [] t = t := rfl

theorem applyBatch_cons (e : ConflictEvent) (b : List ConflictEvent)
    (t : ConflictTable) :
    applyBatch (e :: b) t =
      applyBatch b (if satisfiesNotNull e then upsertConflictRow e t else t) := rfl

theorem upsertRow_absorb {x r : ConflictEvent} (t : ConflictTable)
    (h : x.id = r.id) :
    upsertConflictRow x (upsertConflictRow r t) = upsertConflictRow x t := by
  unfold upsertConflictRow
  rw [show r.id = x.id from h.symm, Finmap.insert_insert]

theorem upsertRow_comm {x r : ConflictEvent} (t : ConflictTable)
    (h : x.id ≠ r.id) :
    upsertConflictRow x (upsertConflictRow r t) =
      upsertConflictRow r (upsertConflictRow x t) := by
  unfold upsertConflictRow
  exact Finmap.insert_insert_of_ne t (Ne.symm h)

/-- If some valid record later in the batch shares `r`'s key, an initial
upsert of `r` is absorbed. -/
theorem applyBatch_absorb (xs : List ConflictEvent) (r : ConflictEvent)
    (t : ConflictTable)
    (hmem : ∃ x ∈ xs, satisfiesNotNull x = true ∧ x.id = r.id) :
    applyBatch xs (upsertConflictRow r t) = applyBatch xs t := by
  induction xs generalizing t with
  | nil =>
    obtain ⟨x, hx, _⟩ := hmem
    exact absurd hx (List.not_mem_nil x)
  | cons x xs ih =>
    obtain ⟨w, hw, hwv, hwid⟩ := hmem
    by_cases hx : satisfiesNotNull x = true
    · by_cases hid : x.id = r.id
      · rw [applyBatch_cons, applyBatch_cons, if_pos hx, if_pos hx,
          upsertRow_absorb t hid]
      · have hw' : w ∈ xs := by
          rcases List.mem_cons.mp hw with h | h
          · subst h; exact absurd hwid hid
          · exact h
        rw [applyBatch_cons, applyBatch_cons, if_pos hx, if_pos hx,
          upsertRow_comm t hid]
        exact ih (upsertConflictRow x t) ⟨w, hw', hwv, hwid⟩
    · have hw' : w ∈ xs := by
        rcases List.mem_cons.mp hw with h | h
        · subst h; exact absurd hwv hx
        · exact h
      rw [applyBatch_cons, applyBatch_cons, if_neg hx, if_neg hx]
      exact ih t ⟨w, hw', hwv, hwid⟩

/-- A batch `l₁` each of whose valid records is covered by a valid record
of `l₂` with the same key leaves no trace once `l₂` is applied. -/
theorem applyBatch_covered (l₁ l₂ : List ConflictEvent) (t : ConflictTable)
    (h : ∀ r ∈ l₁, satisfiesNotNull r = true →
      ∃ x ∈ l₂, satisfiesNotNull x = true ∧ x.id = r.id) :
    applyBatch l₂ (applyBatch l₁ t) = applyBatch l₂ t := by
  induction l₁ generalizing t with
  | nil => rfl
  | cons r l₁ ih =>
    rw [applyBatch_cons]
    by_cases hr : satisfiesNotNull r = true
    · rw [if_pos hr,
        ih (upsertConflictRow r t) (fun q hq hqv => h q (List.mem_cons_of_mem r hq) hqv)]
      exact applyBatch_absorb l₂ r t (h r (List.mem_cons_self r l₁) hr)
    · rw [if_neg hr]
      exact ih t (fun q hq hqv => h q (List.mem_cons_of_mem r hq) hqv)

theorem applyBatch_idem (b : List ConflictEvent) (t : ConflictTable) :
    applyBatch b (applyBatch b t) = applyBatch b t :=
  applyBatch_covered b b t (fun r hr hv => ⟨r, hr, hv, rfl⟩)

/-- `upsertConflicts` computed as table and count: the count is the number
of records passing the NOT NULL constraints, independent of the table. -/
theorem upsertConflicts_eq (b : List ConflictEvent) (t : ConflictTable) :
    upsertConflicts b t =
      (applyBatch b t, b.countP (fun e => satisfiesNotNull e)) := by
  induction b generalizing t with
  | nil => rfl
  | cons e b ih =>
    by_cases he : satisfiesNotNull e = true
    · show (if satisfiesNotNull e then _ else _) = _
      rw [if_pos he, applyBatch_cons, if_pos he, List.countP_cons]
      simp only [he, if_pos, ih]
    · show (if satisfiesNotNull e then _ else _) = _
      rw [if_neg he, applyBatch_cons, if_neg he, List.countP_cons]
      simp [he, ih]

/-- C2.  Idempotent upsert: for every batch of conflict-event records and
every starting table, applying `upsertConflicts` to the batch a second
time, on the table the first application produced, yields exactly the same
table (same rows, hence same content) and returns the same count; the row
count of the table is also unchanged.  Insert-or-replace keyed by `id`
creates no duplicates. -/
theorem upsertConflicts_idempotent (b : List ConflictEvent) (t : ConflictTable) :
    upsertConflicts b (upsertConflicts b t).1 = upsertConflicts b t ∧
    rowCount (upsertConflicts b (upsertConflicts b t).1).1 =
      rowCount (upsertConflicts b t).1 := by
  have h : upsertConflicts b (upsertConflicts b t).1 = upsertConflicts b t := by
    rw [upsertConflicts_eq b t]
    rw [upsertConflicts_eq b (applyBatch b t), applyBatch_idem]
  exact ⟨h, by rw [h]⟩

/-! ## Lemmas about the sync-log lifecycle -/

theorem map_keep_of_ne {f : LogEntry → LogEntry} {idv : Nat}
    (l : List LogEntry) (h : ∀ e ∈ l, e.id ≠ idv) :
    l.map (fun e => if e.id = idv then f e else e) = l := by
  induction l with
  | nil => rfl
  | cons a l ih =>
    rw [List.map_cons, if_neg (h a (List.mem_cons_self a l)),
      ih (fun e he => h e (List.mem_cons_of_mem a he))]

theorem terminalEntryOf_id (id : Nat) (name : String) (tS tE : Nat)
    (res : Except String (Nat × Nat)) :
    (terminalEntryOf id name tS tE res).id = id := by
  cases res <;> rfl

/-- What one `syncAdapterInternal` run does: append the fresh entry in its
terminal state and advance the rowid counter; the data table becomes
whatever the adapter execution made of it. -/
theorem syncAdapterInternalM_spec (name : String) (tS tE : Nat)
    (runner : ConflictTable → ConflictTable × Except String (Nat × Nat))
    (st : DbState) (hfresh : ∀ e ∈ st.log.entries, e.id < st.log.nextId) :
    syncAdapterInternalM name tS tE runner st =
      ⟨⟨st.log.entries ++
          [terminalEntryOf st.log.nextId name tS tE (runner st.conflicts).2],
        st.log.nextId + 1⟩,
       (runner st.conflicts).1⟩ := by
  have hne : ∀ e ∈ st.log.entries, e.id ≠ st.log.nextId :=
    fun e he => Nat.ne_of_lt (hfresh e he)
  unfold syncAdapterInternalM logSyncStart
  cases hres : (runner st.conflicts).2 with
  | ok fu =>
    simp only [hres]
    unfold logSyncComplete
    rw [List.map_append, map_keep_of_ne st.log.entries hne]
    simp [terminalEntryOf]
  | error m =>
    simp only [hres]
    unfold logSyncError
    rw [List.map_append, map_keep_of_ne st.log.entries hne]
    simp [terminalEntryOf]

/-- The effect of a sequence of scheduler runs on the log. -/
theorem runSequence_spec (runs : List RunSpec) :
    ∀ (st : DbState), (∀ e ∈ st.log.entries, e.id < st.log.nextId) →
      (runSequence runs st).log.entries =
        st.log.entries ++ expectedEntries st.log.nextId st.conflicts runs ∧
      (runSequence runs st).log.nextId = st.log.nextId + runs.length := by
  induction runs with
  | nil => intro st _; simp [runSequence, expectedEntries]
  | cons r rs ih =>
    intro st hfresh
    have hstep := syncAdapterInternalM_spec r.name r.tStart r.tEnd r.runner st hfresh
    have hrs : runSequence (r :: rs) st =
        runSequence rs (syncAdapterInternalM r.name r.tStart r.tEnd r.runner st) := rfl
    set st2 := syncAdapterInternalM r.name r.tStart r.tEnd r.runner st with hst2
    have hfresh2 : ∀ e ∈ st2.log.entries, e.id < st2.log.nextId := by
      rw [hstep]
      intro e he
      rcases List.mem_append.mp he with h | h
      · exact Nat.lt_succ_of_lt (hfresh e h)
      · rcases List.mem_singleton.mp h with rfl
        rw [terminalEntryOf_id]
        exact Nat.lt_succ_self _
    obtain ⟨h1, h2⟩ := ih st2 hfresh2
    constructor
    · rw [hrs, h1, hstep]
      show (st.log.entries ++ [_]) ++ _ = st.log.entries ++ expectedEntries _ _ (r :: rs)
      rw [List.append_assoc]
      rfl
    · rw [hrs, h2, hstep]
      show st.log.nextId + 1 + rs.length = st.log.nextId + (r :: rs).length
      rw [List.length_cons]
      omega

/-- Every row of `expectedEntries` is terminal, with `completed_at` set. -/
theorem expectedEntries_terminal :
    ∀ (runs : List RunSpec) (n : Nat) (t : ConflictTable),
      ∀ e ∈ expectedEntries n t runs,
        (e.status = RunStatus.completed ∨ e.status = RunStatus.error) ∧
        e.completedAt.isSome = true := by
  intro runs
  induction runs with
  | nil => intro n t e he; exact absurd he (List.not_mem_nil e)
  | cons r rs ih =>
    intro n t e he
    rcases List.mem_cons.mp he with h | h
    · subst h
      cases (r.runner t).2 with
      | ok fu => exact ⟨Or.inl rfl, rfl⟩
      | error m => exact ⟨Or.inr rfl, rfl⟩
    · exact ih (n + 1) (r.runner t).1 e h

theorem countP_valid_add_invalid (l : List ConflictEvent) :
    l.countP (fun e => satisfiesNotNull e) +
      l.countP (fun e => !satisfiesNotNull e) = l.length := by
  induction l with
  | nil => rfl
  | cons e l ih =>
    rw [List.countP_cons, List.countP_cons, List.length_cons]
    by_cases he : satisfiesNotNull e = true
    · simp only [he]
      simp
      omega
    · simp only [Bool.not_eq_true] at he
      simp only [he]
      simp
      omega

theorem find?_append_fresh (l : List LogEntry) (x : LogEntry) (idv : Nat)
    (hx : x.id = idv) (h : ∀ e ∈ l, e.id ≠ idv) :
    (l ++ [x]).find? (fun e => e.id == idv) = some x := by
  subst hx
  rw [List.find?_append]
  have h1 : l.find? (fun e => e.id == x.id) = none :=
    List.find?_eq_none.mpr (fun e he => by simpa using h e he)
  rw [h1]
  simp [List.find?]

/-- C3.  Partial-failure isolation: a batch in which exactly one record
violates a NOT NULL constraint of `conflict_events` (for example a NULL
`iso3` linking identifier) upserts the other N−1 rows inside the one
transaction and returns N−1, and the scheduler records the surrounding
adapter run as `completed` (with N fetched and N−1 upserted), not as
`error`. -/
theorem upsertConflicts_partialFailure (b : List ConflictEvent)
    (t : ConflictTable) (log : SyncLogDb) (name : String) (tS tE : Nat)
    (hfresh : ∀ e ∈ log.entries, e.id < log.nextId)
    (hone : b.countP (fun e => !satisfiesNotNull e) = 1) :
    (upsertConflicts b t).2 = b.length - 1 ∧
    findEntry log.nextId
        (syncAdapterInternalM name tS tE (runFetchUpsert (Except.ok b))
          ⟨log, t⟩).log =
      some ⟨log.nextId, name, tS, some tE, RunStatus.completed, b.length,
            b.length - 1, none⟩ := by
  have hcount : (upsertConflicts b t).2 = b.length - 1 := by
    rw [upsertConflicts_eq]
    have hadd := countP_valid_add_invalid b
    omega
  refine ⟨hcount, ?_⟩
  have hspec := syncAdapterInternalM_spec name tS tE
    (runFetchUpsert (Except.ok b)) ⟨log, t⟩ hfresh
  rw [hspec]
  show findEntry log.nextId
      ⟨log.entries ++
        [terminalEntryOf log.nextId name tS tE (runFetchUpsert (Except.ok b) t).2],
       log.nextId + 1⟩ = _
  have hres : (runFetchUpsert (Except.ok b) t).2 =
      Except.ok (b.length, b.length - 1) := by
    show Except.ok (b.length, (upsertConflicts b t).2) = _
    rw [hcount]
  rw [hres]
  unfold findEntry
  exact find?_append_fresh log.entries _ log.nextId rfl
    (fun e he => Nat.ne_of_lt (hfresh e he))

/-- Concrete instance of C3: a batch of three records of which the middle
one has a NULL `iso3` yields count 2 and a `completed` log entry with
counts (3, 2). -/
theorem upsertConflicts_partialFailure_witness :
    (upsertConflicts [wGood1, wBad, wGood2] ∅).2 = 2 ∧
    findEntry 1 (syncAdapterInternalM "acled" 10 11
        (runFetchUpsert (Except.ok [wGood1, wBad, wGood2])) ⟨⟨[], 1⟩, ∅⟩).log =
      some ⟨1, "acled", 10, some 11, RunStatus.completed, 3, 2, none⟩ :=
  upsertConflicts_partialFailure [wGood1, wBad, wGood2] ∅ ⟨[], 1⟩ "acled" 10 11
    (by intro e he; exact absurd he (List.not_mem_nil e)) (by decide)

/-- C9.  Terminal-status invariant: across any sequence of scheduler runs,
every `sync_log` entry created by `logSyncStart` ends in exactly one
terminal state — `completed` (with the run's counts) or `error` (with its
message), with `completed_at` set — determined solely by its own run's
outcome, and all rows already present before a run (including every
previously terminal row) are carried over unchanged: a terminal entry is
never modified again. -/
theorem syncLog_terminal_status (runs : List RunSpec) (log : SyncLogDb)
    (t : ConflictTable) (hfresh : ∀ e ∈ log.entries, e.id < log.nextId) :
    (runSequence runs ⟨log, t⟩).log.entries =
      log.entries ++ expectedEntries log.nextId t runs ∧
    ∀ e ∈ expectedEntries log.nextId t runs,
      (e.status = RunStatus.completed ∨ e.status = RunStatus.error) ∧
      e.completedAt.isSome = true :=
  ⟨(runSequence_spec runs ⟨log, t⟩ hfresh).1,
   expectedEntries_terminal runs log.nextId t⟩

/-- Concrete instance of C9: one succeeding and one failing run starting
from an empty log leave exactly one `completed` and one `error` entry. -/
theorem syncLog_terminal_status_witness :
    (runSequence [wRunOk, wRunErr] ⟨⟨[], 1⟩, ∅⟩).log.entries =
      [⟨1, "natural-earth", 1, some 2, RunStatus.completed, 5, 5, none⟩,
       ⟨2, "acled", 3, some 4, RunStatus.error, 0, 0, some "boom2"⟩] := by
  have h := (syncLog_terminal_status [wRunOk, wRunErr] ⟨[], 1⟩ ∅
    (by intro e he; exact absurd he (List.not_mem_nil e))).1
  rw [h]
  rfl

/-! ## Lemmas about the retry engine -/

/-- When every attempt from `attempt` through `maxRetries` fails,
`withRetry` makes all of them, sleeps the doubling backoff delays between
them, and throws the last error. -/
theorem withRetryGo_all_fail {α : Type} (attemptFn : Nat → Except String α)
    (es : Nat → String) (maxRetries base : Nat) :
    ∀ (k attempt : Nat), attempt + k = maxRetries →
      (∀ i, attempt ≤ i → i ≤ maxRetries → attemptFn i = .error (es i)) →
      withRetryGo attemptFn maxRetries base attempt =
        (.error (es maxRetries), k + 1,
         (List.range k).map (fun j => base * 2 ^ (attempt + j))) := by
  intro k
  induction k with
  | zero =>
    intro attempt hsum hall
    obtain rfl : attempt = maxRetries := by omega
    rw [withRetryGo, hall attempt le_rfl (by omega)]
    simp only [dif_neg (by omega : ¬attempt < attempt)]
    rfl
  | succ k ih =>
    intro attempt hsum hall
    have hlt : attempt < maxRetries := by omega
    have hlist : base * 2 ^ attempt ::
        (List.range k).map (fun j => base * 2 ^ (attempt + 1 + j)) =
        (List.range (k + 1)).map (fun j => base * 2 ^ (attempt + j)) := by
      rw [List.range_succ_eq_map, List.map_cons, List.map_map]
      refine congrArg₂ _ (by rw [Nat.add_zero]) ?_
      apply List.map_congr_left
      intro j _
      show base * 2 ^ (attempt + 1 + j) = base * 2 ^ (attempt + (j + 1))
      refine congrArg _ (congrArg _ (by omega))
    rw [withRetryGo, hall attempt le_rfl (by omega)]
    simp only [dif_pos hlt]
    rw [ih (attempt + 1) (by omega) (fun i hi1 hi2 => hall i (by omega) hi2),
      ← hlist]

/-- If pages `0..k-1` succeed announcing more pages and page `k` fails on
every attempt of its retry window, the pagination loop propagates the
final error (the accumulated records are discarded). -/
theorem fetchAllGo_fail
    (pageAttemptFn : Nat → Nat → Except String (List ConflictEvent × Bool))
    (pages : Nat → List ConflictEvent) (es : Nat → String) (k : Nat)
    (hok : ∀ p, p < k → ∀ a, pageAttemptFn p a = .ok (pages p, true))
    (hfail : ∀ a, a ≤ DEFAULT_MAX_RETRIES → pageAttemptFn k a = .error (es a)) :
    ∀ (fuel j : Nat) (acc : List ConflictEvent), j ≤ k → k < j + fuel →
      fetchAllGo pageAttemptFn fuel j acc = .error (es DEFAULT_MAX_RETRIES) := by
  intro fuel
  induction fuel with
  | zero => intro j acc h1 h2; omega
  | succ fuel ih =>
    intro j acc h1 h2
    by_cases hj : j = k
    · subst hj
      have hw := withRetryGo_all_fail (pageAttemptFn j) es
        DEFAULT_MAX_RETRIES DEFAULT_BASE_DELAY_MS DEFAULT_MAX_RETRIES 0
        (by omega) (fun i _ hi2 => hfail i hi2)
      show (match (withRetryGo (pageAttemptFn j) DEFAULT_MAX_RETRIES
          DEFAULT_BASE_DELAY_MS 0).1 with
        | .error e => Except.error e
        | .ok (data, hasMore) =>
          if hasMore then fetchAllGo pageAttemptFn fuel (j + 1) (acc ++ data)
          else .ok (acc ++ data)) = _
      rw [hw]
    · have hjk : j < k := by omega
      have hw : withRetryGo (pageAttemptFn j) DEFAULT_MAX_RETRIES
          DEFAULT_BASE_DELAY_MS 0 = (.ok (pages j, true), 1, []) := by
        rw [withRetryGo, hok j hjk 0]
      show (match (withRetryGo (pageAttemptFn j) DEFAULT_MAX_RETRIES
          DEFAULT_BASE_DELAY_MS 0).1 with
        | .error e => Except.error e
        | .ok (data, hasMore) =>
          if hasMore then fetchAllGo pageAttemptFn fuel (j + 1) (acc ++ data)
          else .ok (acc ++ data)) = _
      rw [hw]
      show fetchAllGo pageAttemptFn fuel (j + 1) (acc ++ pages j) = _
      exact ih (j + 1) (acc ++ pages j) (by omega) (by omega)

/-- C6.  Retry exhaustion: with the default policy (`maxRetries = 3`,
base delay 2 s) a page that fails on all `1 + maxRetries = 4` attempts is
retried with backoff delays of exactly 2 s, 4 s and 8 s and then makes
`fetchAll` propagate the error; the adapter run terminates with log status
`error`, whose `records_upserted` equals the number of records committed
to the store before the failing page — which is 0, because the store is
only written after the whole fetch phase, so the conflict table is left
exactly as it was (nothing to roll back). -/
theorem retryExhaustion_run_error
    (pageAttemptFn : Nat → Nat → Except String (List ConflictEvent × Bool))
    (pages : Nat → List ConflictEvent) (es : Nat → String) (k fuel : Nat)
    (log : SyncLogDb) (t : ConflictTable) (name : String) (tS tE : Nat)
    (hok : ∀ p, p < k → ∀ a, pageAttemptFn p a = Except.ok (pages p, true))
    (hfail : ∀ a, a ≤ DEFAULT_MAX_RETRIES → pageAttemptFn k a = Except.error (es a))
    (hfuel : k < fuel)
    (hfresh : ∀ e ∈ log.entries, e.id < log.nextId) :
    withRetryGo (pageAttemptFn k) DEFAULT_MAX_RETRIES DEFAULT_BASE_DELAY_MS 0 =
      (Except.error (es 3), 4, [2000, 4000, 8000]) ∧
    fetchAllGo pageAttemptFn fuel 0 [] = Except.error (es 3) ∧
    (syncAdapterInternalM name tS tE
        (runFetchUpsert (fetchAllGo pageAttemptFn fuel 0 [])) ⟨log, t⟩).conflicts
      = t ∧
    findEntry log.nextId
        (syncAdapterInternalM name tS tE
          (runFetchUpsert (fetchAllGo pageAttemptFn fuel 0 [])) ⟨log, t⟩).log =
      some ⟨log.nextId, name, tS, some tE, RunStatus.error, 0, 0, some (es 3)⟩ := by
  have h1 : withRetryGo (pageAttemptFn k) DEFAULT_MAX_RETRIES
      DEFAULT_BASE_DELAY_MS 0 = (Except.error (es 3), 4, [2000, 4000, 8000]) := by
    rw [withRetryGo_all_fail (pageAttemptFn k) es DEFAULT_MAX_RETRIES
      DEFAULT_BASE_DELAY_MS DEFAULT_MAX_RETRIES 0 (by omega)
      (fun i _ hi2 => hfail i hi2)]
    rfl
  have h2 : fetchAllGo pageAttemptFn fuel 0 [] = Except.error (es 3) :=
    fetchAllGo_fail pageAttemptFn pages es k hok hfail fuel 0 [] (by omega)
      (by omega)
  have hspec := syncAdapterInternalM_spec name tS tE
    (runFetchUpsert (fetchAllGo pageAttemptFn fuel 0 [])) ⟨log, t⟩ hfresh
  rw [h2] at hspec
  refine ⟨h1, h2, ?_, ?_⟩
  · rw [h2, hspec]
    rfl
  · rw [h2, hspec]
    show findEntry log.nextId
        ⟨log.entries ++
          [terminalEntryOf log.nextId name tS tE
            (runFetchUpsert (Except.error (es 3)) t).2],
         log.nextId + 1⟩ = _
    unfold findEntry
    exact find?_append_fresh log.entries _ log.nextId rfl
      (fun e he => Nat.ne_of_lt (hfresh e he))

/-- Concrete instance of C6: page 0 succeeds, page 1 fails on every
attempt; the run errors with nothing committed. -/
theorem retryExhaustion_run_error_witness :
    withRetryGo (wPageFn 1) DEFAULT_MAX_RETRIES DEFAULT_BASE_DELAY_MS 0 =
      (Except.error "boom", 4, [2000, 4000, 8000]) ∧
    fetchAllGo wPageFn 2 0 [] = Except.error "boom" ∧
    (syncAdapterInternalM "acled" 10 11
        (runFetchUpsert (fetchAllGo wPageFn 2 0 [])) ⟨⟨[], 1⟩, ∅⟩).conflicts = ∅ ∧
    findEntry 1 (syncAdapterInternalM "acled" 10 11
        (runFetchUpsert (fetchAllGo wPageFn 2 0 [])) ⟨⟨[], 1⟩, ∅⟩).log =
      some ⟨1, "acled", 10, some 11, RunStatus.error, 0, 0, some "boom"⟩ :=
  retryExhaustion_run_error wPageFn (fun _ => [wGood1]) (fun _ => "boom") 1 2
    ⟨[], 1⟩ ∅ "acled" 10 11
    (by
      intro p hp a
      obtain rfl : p = 0 := by omega
      rfl)
    (fun a _ => rfl)
    (by omega)
    (by intro e he; exact absurd he (List.not_mem_nil e))

/-! ## Lemmas about the watermark query -/

theorem foldl_pickLater_mem :
    ∀ (l : List LogEntry) (b : Option LogEntry) (c : LogEntry),
      l.foldl pickLater b = some c → b = some c ∨ c ∈ l := by
  intro l
  induction l with
  | nil => intro b c h; exact Or.inl h
  | cons e l ih =>
    intro b c h
    rcases ih (pickLater b e) c h with h1 | h1
    · cases b with
      | none =>
        have he : e = c := by simpa [pickLater] using h1
        exact Or.inr (he ▸ List.mem_cons_self e l)
      | some x =>
        by_cases hlt : x.startedAt < e.startedAt
        · have he : e = c := by simpa [pickLater, hlt] using h1
          exact Or.inr (he ▸ List.mem_cons_self e l)
        · have hx : x = c := by simpa [pickLater, hlt] using h1
          exact Or.inl (by rw [hx])
    · exact Or.inr (List.mem_cons_of_mem e h1)

theorem foldl_pickLater_le :
    ∀ (l : List LogEntry) (b : Option LogEntry) (c : LogEntry),
      l.foldl pickLater b = some c →
        (∀ e ∈ l, e.startedAt ≤ c.startedAt) ∧
        (∀ x, b = some x → x.startedAt ≤ c.startedAt) := by
  intro l
  induction l with
  | nil =>
    intro b c h
    refine ⟨fun e he => absurd he (List.not_mem_nil e), fun x hx => ?_⟩
    rw [hx] at h
    cases h
    exact le_rfl
  | cons e l ih =>
    intro b c h
    obtain ⟨h1, h2⟩ := ih (pickLater b e) c h
    have he_le : e.startedAt ≤ c.startedAt := by
      cases b with
      | none => exact h2 e rfl
      | some x =>
        by_cases hlt : x.startedAt < e.startedAt
        · exact h2 e (by simp [pickLater, hlt])
        · have hx := h2 x (by simp [pickLater, hlt])
          omega
    refine ⟨fun q hq => ?_, fun x hx => ?_⟩
    · rcases List.mem_cons.mp hq with rfl | hq'
      · exact he_le
      · exact h1 q hq'
    · cases b with
      | none => cases hx
      | some y =>
        cases hx
        by_cases hlt : x.startedAt < e.startedAt
        · omega
        · exact h2 x (by simp [pickLater, hlt])

theorem foldl_pickLater_isSome :
    ∀ (l : List LogEntry) (b : Option LogEntry), b.isSome = true →
      (l.foldl pickLater b).isSome = true := by
  intro l
  induction l with
  | nil => intro b h; exact h
  | cons e l ih =>
    intro b h
    refine ih (pickLater b e) ?_
    cases b with
    | none => rfl
    | some x =>
      by_cases hlt : x.startedAt < e.startedAt <;> simp [pickLater, hlt]

/-- The SQL max-by-`started_at` selection returns the unique strict
maximum when there is one. -/
theorem maxByStarted_eq_of_strict_max (l : List LogEntry) (m : LogEntry)
    (hm : m ∈ l) (hmax : ∀ e ∈ l, e ≠ m → e.startedAt < m.startedAt) :
    maxByStarted l = some m := by
  have hsome : (maxByStarted l).isSome = true := by
    cases l with
    | nil => exact absurd hm (List.not_mem_nil m)
    | cons x l =>
      show (List.foldl pickLater (pickLater none x) l).isSome = true
      exact foldl_pickLater_isSome l (some x) rfl
  obtain ⟨c, hc⟩ := Option.isSome_iff_exists.mp hsome
  have hcmem : c ∈ l := by
    rcases foldl_pickLater_mem l none c hc with h | h
    · cases h
    · exact h
  have hle := (foldl_pickLater_le l none c hc).1 m hm
  by_cases hcm : c = m
  · rw [show maxByStarted l = some c from hc, hcm]
  · have hlt := hmax c hcmem hcm
    exact absurd hle (by omega)

/-- C7.  Incremental watermark with first-sync cap: when the sync log
holds no `completed` acled entry (`getLastSuccessfulSync` returns null),
the acled run's fetch window starts two years before now (truncated to the
day); once the log holds completed acled entries with a unique most recent
one (by `started_at`) whose `completed_at` is T1, the window's lower bound
is exactly T1 — not the historical default. -/
theorem acled_watermark (log : SyncLogDb) (nowMs : Nat) (m : LogEntry)
    (T1 : Nat) :
    ((∀ e ∈ log.entries, ¬(e.adapter = "acled" ∧ e.status = RunStatus.completed)) →
      acledWindowLowerBound log nowMs = dayFloor (nowMs - TWO_YEARS_MS)) ∧
    (m ∈ log.entries → m.adapter = "acled" → m.status = RunStatus.completed →
      m.completedAt = some T1 →
      (∀ e ∈ log.entries, e ≠ m → e.adapter = "acled" →
        e.status = RunStatus.completed → e.startedAt < m.startedAt) →
      acledWindowLowerBound log nowMs = T1) := by
  constructor
  · intro h
    unfold acledWindowLowerBound getLastSuccessfulSync
    have hfilter : log.entries.filter
        (fun e => e.adapter == "acled" && e.status == RunStatus.completed) = [] := by
      rw [List.filter_eq_nil_iff]
      intro e he
      simpa using h e he
    rw [hfilter]
    rfl
  · intro hm ha hs hc hmax
    unfold acledWindowLowerBound getLastSuccessfulSync
    have hm' : m ∈ log.entries.filter
        (fun e => e.adapter == "acled" && e.status == RunStatus.completed) :=
      List.mem_filter.mpr ⟨hm, by simp [ha, hs]⟩
    have hmax' : ∀ e ∈ log.entries.filter
        (fun e => e.adapter == "acled" && e.status == RunStatus.completed),
        e ≠ m → e.startedAt < m.startedAt := by
      intro e he hne
      obtain ⟨he1, he2⟩ := List.mem_filter.mp he
      simp only [Bool.and_eq_true, beq_iff_eq] at he2
      exact hmax e he1 hne he2.1 he2.2
    rw [maxByStarted_eq_of_strict_max _ m hm' hmax']
    show effectiveSince m.completedAt nowMs = T1
    rw [hc]
    rfl

/-- Concrete instances of C7: a log without a completed acled entry falls
back to the two-year cap; a log whose most recent completed acled entry
completed at 450 yields lower bound 450. -/
theorem acled_watermark_witness :
    acledWindowLowerBound wLogA 1700000000000 =
      dayFloor (1700000000000 - TWO_YEARS_MS) ∧
    acledWindowLowerBound wLogB 777 = 450 :=
  ⟨(acled_watermark wLogA 1700000000000 wEntryB 450).1 (by decide),
   (acled_watermark wLogB 777 wEntryB 450).2 (by decide) rfl rfl rfl (by decide)⟩

/-! ## The token state machine -/

/-- C4.  Token refresh boundary: with a held token whose access expiry is
T and buffer B = 60 s, a request at T−B−1 returns the existing token
unmodified, making no refresh and no login call; a request at T−B+1 does
not use the existing token — it first attempts a refresh or, when no
usable refresh token is held, a full re-authentication. -/
theorem token_refresh_boundary (t : AcledTokens)
    (rf : String → Except String AcledTokens)
    (lf : Unit → Except String AcledTokens) :
    ensureValidTokens (t.tokenExpiry - REFRESH_BUFFER_MS - 1) (some t) rf lf =
      ⟨.ok t, true, false, false⟩ ∧
    (ensureValidTokens (t.tokenExpiry - REFRESH_BUFFER_MS + 1) (some t) rf lf).usedExisting = false ∧
    ((ensureValidTokens (t.tokenExpiry - REFRESH_BUFFER_MS + 1) (some t) rf lf).refreshAttempted = true ∨
     (ensureValidTokens (t.tokenExpiry - REFRESH_BUFFER_MS + 1) (some t) rf lf).loginAttempted = true) := by
  refine ⟨?_, ?_⟩
  · simp only [ensureValidTokens]
    rw [if_pos (by omega : t.tokenExpiry - REFRESH_BUFFER_MS - 1 <
      t.tokenExpiry - REFRESH_BUFFER_MS)]
  · simp only [ensureValidTokens]
    rw [if_neg (by omega : ¬(t.tokenExpiry - REFRESH_BUFFER_MS + 1 <
      t.tokenExpiry - REFRESH_BUFFER_MS))]
    by_cases h2 : t.refreshToken ≠ "" ∧
        t.tokenExpiry - REFRESH_BUFFER_MS + 1 < t.refreshTokenExpiry
    · rw [if_pos h2]
      cases rf t.refreshToken with
      | ok t2 => exact ⟨rfl, Or.inl rfl⟩
      | error e =>
        cases lf () with
        | ok t3 => exact ⟨rfl, Or.inl rfl⟩
        | error e2 => exact ⟨rfl, Or.inl rfl⟩
    · rw [if_neg h2]
      cases lf () with
      | ok t3 => exact ⟨rfl, Or.inr rfl⟩
      | error e2 => exact ⟨rfl, Or.inr rfl⟩

/-- C5.  Refresh-failure fallback: whenever the access token is within its
expiry buffer and the refresh exchange fails — or no usable refresh token
is held (empty, or past its own expiry) — `ensureValidTokens` falls back
to the full password-grant login, and its overall outcome is exactly the
login's outcome: an authentication error surfaces only if that login
itself fails. -/
theorem refresh_failure_fallback (now : Int) (t : AcledTokens)
    (rf : String → Except String AcledTokens)
    (lf : Unit → Except String AcledTokens)
    (hbuf : t.tokenExpiry - REFRESH_BUFFER_MS ≤ now)
    (hfb : (∃ e, rf t.refreshToken = Except.error e) ∨ t.refreshToken = "" ∨
      t.refreshTokenExpiry ≤ now) :
    (ensureValidTokens now (some t) rf lf).loginAttempted = true ∧
    (ensureValidTokens now (some t) rf lf).result = lf () := by
  simp only [ensureValidTokens]
  rw [if_neg (by omega : ¬now < t.tokenExpiry - REFRESH_BUFFER_MS)]
  by_cases h2 : t.refreshToken ≠ "" ∧ now < t.refreshTokenExpiry
  · rw [if_pos h2]
    rcases hfb with ⟨e, he⟩ | he | he
    · rw [he]
      cases lf () with
      | ok t3 => exact ⟨rfl, rfl⟩
      | error e2 => exact ⟨rfl, rfl⟩
    · exact absurd he h2.1
    · exact absurd h2.2 (by omega)
  · rw [if_neg h2]
    cases lf () with
    | ok t3 => exact ⟨rfl, rfl⟩
    | error e2 => exact ⟨rfl, rfl⟩

/-- Concrete instance of C5: within the buffer and with the refresh
exchange failing, the adapter re-authenticates and ends up with the
login's fresh token pair. -/
theorem refresh_failure_fallback_witness :
    (ensureValidTokens 999000 (some wTok) wRefreshFail wLoginOk).loginAttempted = true ∧
    (ensureValidTokens 999000 (some wTok) wRefreshFail wLoginOk).result =
      Except.ok wTok2 := by
  have h := refresh_failure_fallback 999000 wTok wRefreshFail wLoginOk
    (by decide) (Or.inl ⟨"refresh boom", rfl⟩)
  exact ⟨h.1, by rw [h.2]; exact rfl⟩

/-! ## Lemmas about the settings store -/

/-- What a settings key holds after `updateSettings`: the last defined
value the patch gave it, else its previous value. -/
theorem updateSettings_lookup (patch : List (String × Option String))
    (store : SettingsStore) (k : String) :
    (updateSettings patch store).lookup k =
      match lastDefinedValue k patch with
      | some v => some v
      | none => store.lookup k := by
  induction patch generalizing store with
  | nil => rfl
  | cons kv rest ih =>
    obtain ⟨k0, v0⟩ := kv
    cases v0 with
    | none =>
      have hstep : updateSettings ((k0, none) :: rest) store =
          updateSettings rest store := rfl
      have hlast : lastDefinedValue k ((k0, none) :: rest) =
          lastDefinedValue k rest := by
        show (match lastDefinedValue k rest with
          | some v => some v
          | none => if k0 = k then none else none) = _
        rw [ite_self]
        cases lastDefinedValue k rest with
        | some v => rfl
        | none => rfl
      rw [hstep, hlast, ih store]
    | some v0 =>
      have hstep : updateSettings ((k0, some v0) :: rest) store =
          updateSettings rest (store.insert k0 v0) := rfl
      have hlast : lastDefinedValue k ((k0, some v0) :: rest) =
          match lastDefinedValue k rest with
          | some v => some v
          | none => if k0 = k then some v0 else none := rfl
      rw [hstep, hlast, ih (store.insert k0 v0)]
      cases lastDefinedValue k rest with
      | some v => rfl
      | none =>
        by_cases hk : k0 = k
        · subst hk
          rw [if_pos rfl]
          exact Finmap.lookup_insert store
        · rw [if_neg hk]
          exact Finmap.lookup_insert_of_ne store (Ne.symm hk)

theorem lastDefinedValue_none_of (patch : List (String × Option String))
    (k : String) (h : ∀ kv ∈ patch, kv.1 = k → kv.2 = none) :
    lastDefinedValue k patch = none := by
  induction patch with
  | nil => rfl
  | cons kv rest ih =>
    show (match lastDefinedValue k rest with
      | some v => some v
      | none => if kv.1 = k then kv.2 else none) = none
    rw [ih (fun q hq => h q (List.mem_cons_of_mem kv hq))]
    by_cases hk : kv.1 = k
    · rw [if_pos hk, h kv (List.mem_cons_self kv rest) hk]
    · rw [if_neg hk]

/-- C10.  Frame property of `updateSettings`: any key that the partial
argument does not carry with a defined value — it is absent, or present
with value `undefined` — holds exactly its previous stored value after the
call; only the defined keys of the argument are written. -/
theorem updateSettings_frame (patch : List (String × Option String))
    (store : SettingsStore) (k : String)
    (h : ∀ kv ∈ patch, kv.1 = k → kv.2 = none) :
    (updateSettings patch store).lookup k = store.lookup k := by
  rw [updateSettings_lookup, lastDefinedValue_none_of patch k h]

/-- Concrete instance of C10: a patch writing a token field and carrying
`acledEmail` only as `undefined` leaves the stored email untouched. -/
theorem updateSettings_frame_witness :
    (updateSettings wPatch10 wStore10).lookup "acledEmail" = some "e0" := by
  have h := updateSettings_frame wPatch10 wStore10 "acledEmail" (by decide)
  rw [h]
  rfl

/-- The handler's filtered patch as a `filterMap` over the writable
keys. -/
theorem filteredPayload_eq (entries : List (String × Option String)) :
    filteredPayload entries = WRITABLE_SETTINGS_KEYS.filterMap
      (fun k => (definedValue k entries).map (fun v => (k, some v))) := by
  have aux : ∀ (ks : List String) (acc : List (String × Option String)),
      ks.foldl (fun acc k =>
        match definedValue k entries with
        | some v => acc ++ [(k, some v)]
        | none => acc) acc =
      acc ++ ks.filterMap
        (fun k => (definedValue k entries).map (fun v => (k, some v))) := by
    intro ks
    induction ks with
    | nil => intro acc; simp
    | cons k0 ks ih =>
      intro acc
      show ks.foldl _ (match definedValue k0 entries with
        | some v => acc ++ [(k0, some v)]
        | none => acc) = _
      rw [List.filterMap_cons]
      cases hv : definedValue k0 entries with
      | some v =>
        rw [ih (acc ++ [(k0, some v)])]
        simp
      | none =>
        rw [ih acc]
        rfl
  exact aux WRITABLE_SETTINGS_KEYS []

theorem lastDefinedValue_filterMap_not_mem
    (entries : List (String × Option String)) :
    ∀ (ks : List String) (k : String), k ∉ ks →
      lastDefinedValue k (ks.filterMap
        (fun k2 => (definedValue k2 entries).map (fun v => (k2, some v)))) =
        none := by
  intro ks
  induction ks with
  | nil => intro k _; rfl
  | cons k0 ks ih =>
    intro k hk
    have hk0 : k0 ≠ k := fun h => hk (h ▸ List.mem_cons_self k0 ks)
    have hks : k ∉ ks := fun h => hk (List.mem_cons_of_mem k0 h)
    rw [List.filterMap_cons]
    cases hv : definedValue k0 entries with
    | none => exact ih k hks
    | some v =>
      show (match lastDefinedValue k (ks.filterMap _) with
        | some w => some w
        | none => if k0 = k then some v else none) = none
      rw [ih k hks, if_neg hk0]

theorem lastDefinedValue_filterMap_mem
    (entries : List (String × Option String)) :
    ∀ (ks : List String), ks.Nodup → ∀ k ∈ ks,
      lastDefinedValue k (ks.filterMap
        (fun k2 => (definedValue k2 entries).map (fun v => (k2, some v)))) =
        definedValue k entries := by
  intro ks
  induction ks with
  | nil => intro _ k hk; exact absurd hk (List.not_mem_nil k)
  | cons k0 ks ih =>
    intro hnd k hk
    obtain ⟨hk0nin, hnd'⟩ := List.nodup_cons.mp hnd
    rw [List.filterMap_cons]
    rcases List.mem_cons.mp hk with rfl | hk'
    · cases hv : definedValue k entries with
      | none => exact lastDefinedValue_filterMap_not_mem entries ks k hk0nin
      | some v =>
        show (match lastDefinedValue k (ks.filterMap _) with
          | some w => some w
          | none => if k = k then some v else none) = some v
        rw [lastDefinedValue_filterMap_not_mem entries ks k hk0nin, if_pos rfl]
    · have hk0 : k0 ≠ k := fun h => hk0nin (h ▸ hk')
      cases hv : definedValue k0 entries with
      | none => exact ih hnd' k hk'
      | some v0 =>
        show (match lastDefinedValue k (ks.filterMap _) with
          | some w => some w
          | none => if k0 = k then some v0 else none) = definedValue k entries
        rw [ih hnd' k hk']
        cases definedValue k entries with
        | some v => rfl
        | none => rw [if_neg hk0]

/-- C8 (amended).  The `settings:set` handler accepts every plain-object
payload and applies exactly its writable defined keys: a key outside
`WRITABLE_SETTINGS_KEYS` is silently dropped — its stored value is
untouched and no error is raised — while every writable key present with
a defined value is stored.  (Unknown keys are thus ignored by design, so a
mixed payload is partially applied without an error.) -/
theorem settingsSet_silent_filter (entries : List (String × Option String))
    (store : SettingsStore) :
    (settingsSetHandler (SettingsPayload.obj entries) store).isOk = true ∧
    (∀ k, k ∉ WRITABLE_SETTINGS_KEYS →
      ∀ s, settingsSetHandler (SettingsPayload.obj entries) store = Except.ok s →
        s.lookup k = store.lookup k) ∧
    (∀ k v, k ∈ WRITABLE_SETTINGS_KEYS → definedValue k entries = some v →
      ∀ s, settingsSetHandler (SettingsPayload.obj entries) store = Except.ok s →
        s.lookup k = some v) := by
  refine ⟨rfl, ?_, ?_⟩
  · intro k hk s hs
    have hs' : updateSettings (filteredPayload entries) store = s := by
      injection hs
    rw [← hs', updateSettings_lookup, filteredPayload_eq,
      lastDefinedValue_filterMap_not_mem entries WRITABLE_SETTINGS_KEYS k hk]
  · intro k v hk hv s hs
    have hs' : updateSettings (filteredPayload entries) store = s := by
      injection hs
    rw [← hs', updateSettings_lookup, filteredPayload_eq,
      lastDefinedValue_filterMap_mem entries WRITABLE_SETTINGS_KEYS
        (by decide) k hk, hv]

/-- Concrete instance of the amended C8: a payload with one writable and
one token key is accepted; the writable key is stored, the token key's
stored value is untouched. -/
theorem settingsSet_silent_filter_witness :
    (settingsSetHandler (SettingsPayload.obj wPayload8) wStore8).isOk = true ∧
    (updateSettings (filteredPayload wPayload8) wStore8).lookup "acledAccessToken" =
      wStore8.lookup "acledAccessToken" ∧
    (updateSettings (filteredPayload wPayload8) wStore8).lookup "acledEmail" =
      some "new" := by
  have h := settingsSet_silent_filter wPayload8 wStore8
  exact ⟨h.1,
    h.2.1 "acledAccessToken" (by decide) _ rfl,
    h.2.2 "acledEmail" "new" (by decide) rfl _ rfl⟩

/-- Counterexample to C8 as stated: the concrete mixed payload `wPayload8`
(a writable `acledEmail` plus the non-writable `acledAccessToken`) is
accepted without any error, yet only `acledEmail` is stored while the
requested `acledAccessToken` write is silently dropped — a partially
applied write with no error, which C8 asserts can never happen. -/
theorem settingsSet_partial_apply_counterexample :
    settingsSetHandler (SettingsPayload.obj wPayload8) wStore8 =
      Except.ok wAfter8 ∧
    wAfter8.lookup "acledEmail" = some "new" ∧
    wAfter8.lookup "acledAccessToken" = some "oldtok" ∧
    wStore8.lookup "acledAccessToken" = some "oldtok" := by
  refine ⟨?_, ?_, ?_, ?_⟩ <;> rfl

/-! ## The scheduler guard -/

/-- C1 fails on the code: evaluation of the guard model at the failing
schedule.  Starting idle, a first `syncAdapter("ucdp")` passes the guard
and starts its adapter execution, yet leaves `running` clear (only
`syncAll` ever sets it); a second `syncAdapter("ucdp")`, entering while
the first is suspended at its `await`, therefore also passes the guard,
and two executions are started — the claim's "exactly one execution, the
second call a no-op" is violated. -/
theorem syncAdapter_concurrent_double_execution :
    (syncAdapterEntry "ucdp" ⟨false, []⟩).2 = true ∧
    (syncAdapterEntry "ucdp" ⟨false, []⟩).1.running = false ∧
    (syncAdapterEntry "ucdp" (syncAdapterEntry "ucdp" ⟨false, []⟩).1).2 = true ∧
    (syncAdapterEntry "ucdp" (syncAdapterEntry "ucdp" ⟨false, []⟩).1).1.executions =
      ["ucdp", "ucdp"] := by
  decide

end Odin
